import Mathlib

/-
Verification of the cross-chain custody bridge core of the
bjlqsnetwork/protocol repository: the threshold multi-signature
aggregator (package keys), the Ethereum tracker transition handlers
(package event), the transition engine wiring, the gas-metered chain
state (package storage) and the Bitcoin tracker store (package bitcoin).

Go slices of bytes are modelled as `List Nat`.  Where the program
observes the difference between a nil slice and an empty slice
(`signers == nil`, `item.Sign != nil`) the field is modelled as an
`Option` with `none` standing for nil.  Machine integers that are only
compared are modelled as `Int`/`Nat`; the one place arithmetic can
overflow (uint64 gas accounting) reduces modulo 2^64.  A Go panic
(out-of-range slice index) is modelled by an `Option`-valued function
returning `none`.
-/

namespace Protocol

/-- Byte strings (`[]byte`) as lists of byte values. -/
abbrev ByteStr := List Nat

/-- `keys.Address` is a byte string. -/
abbrev Address := ByteStr

/-! ## Multi-sig aggregator (package keys, BTCMultiSig) -/

/-- One collected signature (`keys.BTCSignature`): slot index (Go `int`,
modelled as `Int`), claimed signer address, and the signature bytes.
`Sign` is `Option` because the source distinguishes a nil `Sign` (empty
slot) from a present one (`item.Sign != nil`). -/
structure BTCSignature where
  Index : Int
  Address : Address
  Sign : Option ByteStr
deriving DecidableEq, Repr

/-- The zero value of `BTCSignature` (what `make([]BTCSignature, n)`
fills slots with). -/
def emptySlot : BTCSignature := { Index := 0, Address := [], Sign := none }

instance : Inhabited BTCSignature := ⟨emptySlot⟩

/-- `keys.BTCMultiSig`: a threshold signature collection over a fixed
message.  `Signatures` corresponds positionally to `Signers`. -/
structure BTCMultiSig where
  Msg : ByteStr
  M : Int
  Signers : List Address
  Signatures : List BTCSignature
deriving DecidableEq, Repr

/-- Errors returned by the multi-sig aggregator (package keys). -/
inductive MultiSigError where
  | missSigners
  | invalidThreshold
  | notExpectedSigner
deriving DecidableEq, Repr

/-- `keys.NewBTCMultiSig(msg, m, signers)`.  The `signers` parameter is
`Option (List Address)` because the source checks `signers == nil`
specifically: a nil slice (`none`) and an empty but non-nil slice
(`some []`) behave differently in Go.  On success the signature array is
`make([]BTCSignature, len(signers))`, i.e. all slots zero-valued. -/
def NewBTCMultiSig (msg : ByteStr) (m : Int) (signers : Option (List Address)) :
    Except MultiSigError BTCMultiSig :=
  match signers with
  | none => Except.error MultiSigError.missSigners
  | some ss =>
    if m < 0 ∨ (ss.length : Int) < m then
      Except.error MultiSigError.invalidThreshold
    else
      Except.ok { Msg := msg, M := m, Signers := ss,
                  Signatures := List.replicate ss.length emptySlot }

/-- `keys.BTCMultiSig.AddSignature(s)`.  The source indexes
`m.Signers[s.Index]` and writes `m.Signatures[s.Index]` without bounds
checks, so an out-of-range index panics: modelled as `none`.  Otherwise
the result carries the Go return value together with the multi-sig
value after the call (Go mutates the receiver in place; the error
branch returns before the write). -/
def AddSignature (m : BTCMultiSig) (s : BTCSignature) :
    Option (Except MultiSigError Unit × BTCMultiSig) :=
  if 0 ≤ s.Index ∧ s.Index < (m.Signers.length : Int) then
    if s.Address = m.Signers.getD s.Index.toNat [] then
      if s.Index < (m.Signatures.length : Int) then
        some (Except.ok (), { m with Signatures := m.Signatures.set s.Index.toNat s })
      else none
    else some (Except.error MultiSigError.notExpectedSigner, m)
  else none

/-- `keys.BTCMultiSig.IsValid()`: at least `M` non-nil signature slots. -/
def IsValid (m : BTCMultiSig) : Bool :=
  let cnt := (m.Signatures.filter (fun s => s.Sign.isSome)).length
  if (cnt : Int) < m.M then false else true

/-- `keys.BTCMultiSig.Bytes()` up to the JSON layer: the source filters
out the signature slots whose `Sign` is nil and then `json.Marshal`s the
struct.  The JSON encoding of this struct is value-faithful, so the wire
content is modelled as the struct with empty slots filtered out. -/
def BTCMultiSig.Bytes (m : BTCMultiSig) : BTCMultiSig :=
  { m with Signatures := m.Signatures.filter (fun s => s.Sign.isSome) }

/-- `keys.BTCMultiSig.Address()`: the source builds
`{m.Msg, m.M, m.Signers, nil}`, takes its `Bytes()` and hashes
(`utils.Hash` over the marshalled bytes).  `utils.Hash` composed with
the JSON encoder is external and is taken as an arbitrary function of
the wire struct. -/
def BTCMultiSig.Address (hash : BTCMultiSig → Address) (m : BTCMultiSig) : Address :=
  hash (BTCMultiSig.Bytes { Msg := m.Msg, M := m.M, Signers := m.Signers, Signatures := [] })

/-- Write `v` at Go index `i` of `l`; `none` models the Go panic when
`i` is out of range (`m.Signatures[item.Index] = item`). -/
def setAtInt (l : List BTCSignature) (i : Int) (v : BTCSignature) :
    Option (List BTCSignature) :=
  if 0 ≤ i ∧ i < (l.length : Int) then some (l.set i.toNat v) else none

/-- The reinsertion loop of `keys.BTCMultiSig.FromBytes`: each recorded
signature is written back at its recorded `Index`. -/
def insertAll (acc : List BTCSignature) : List BTCSignature → Option (List BTCSignature)
  | [] => some acc
  | s :: rest =>
    match setAtInt acc s.Index s with
    | none => none
    | some acc2 => insertAll acc2 rest

/-- `keys.BTCMultiSig.FromBytes(b)` after the JSON layer: the source
unmarshals the wire struct, replaces `Signatures` with
`make([]BTCSignature, len(m.Signers))` and re-inserts every wire
signature at its recorded index. -/
def BTCMultiSig.FromBytes (w : BTCMultiSig) : Option BTCMultiSig :=
  (insertAll (List.replicate w.Signers.length emptySlot) w.Signatures).map
    (fun sigs => { w with Signatures := sigs })

/-- Attach a list of signatures one after the other with `AddSignature`,
propagating the Go panic (`none`); a rejected signature leaves the value
as the source does (the error branch does not mutate). -/
def attachAll (m : BTCMultiSig) : List BTCSignature → Option BTCMultiSig
  | [] => some m
  | s :: rest =>
    match AddSignature m s with
    | none => none
    | some (_, m2) => attachAll m2 rest

/-- A call to `AddSignature` never changes the message, the threshold or
the signer list: only the `Signatures` array is written. -/
theorem AddSignature_fields (m : BTCMultiSig) (s : BTCSignature)
    (r : Except MultiSigError Unit) (m2 : BTCMultiSig)
    (h : AddSignature m s = some (r, m2)) :
    m2.Msg = m.Msg ∧ m2.M = m.M ∧ m2.Signers = m.Signers := by
  unfold AddSignature at h
  split at h
  · split at h
    · split at h
      · simp only [Option.some.injEq, Prod.mk.injEq] at h
        rw [← h.2]
        exact ⟨rfl, rfl, rfl⟩
      · exact absurd h (by simp)
    · simp only [Option.some.injEq, Prod.mk.injEq] at h
      rw [← h.2]
      exact ⟨rfl, rfl, rfl⟩
  · exact absurd h (by simp)

/-- Example multi-sig value used by the concrete witnesses: three
signers, threshold two, fresh signature slots (the value
`NewBTCMultiSig [7] 2 (some [[1],[2],[3]])` returns). -/
def msEx : BTCMultiSig :=
  { Msg := [7], M := 2, Signers := [[1], [2], [3]],
    Signatures := List.replicate 3 emptySlot }

/-- Concrete stand-in for the external hash/encoder composition in the
witnesses. -/
def hashEx (w : BTCMultiSig) : Address := w.Msg ++ [w.Signers.length, w.Signatures.length]

/-- Example signature for slot `i` of `msEx`. -/
def sigEx (i : Nat) : BTCSignature := { Index := (i : Int), Address := [i + 1], Sign := some [9, i] }

/-- C5: for every hash function, every multi-sig value and every
sequence of signatures attached through `AddSignature` (in any order),
the value of `Address()` after the attachments equals its value before:
`Address()` depends only on the message, the threshold and the signer
list, never on the collected signatures. -/
theorem address_invariant_under_attachment
    (hash : BTCMultiSig → Address) (m : BTCMultiSig) (sigs : List BTCSignature)
    (m2 : BTCMultiSig) (h : attachAll m sigs = some m2) :
    BTCMultiSig.Address hash m2 = BTCMultiSig.Address hash m := by
  induction sigs generalizing m with
  | nil =>
    simp only [attachAll, Option.some.injEq] at h
    rw [h]
  | cons s rest ih =>
    simp only [attachAll] at h
    cases hadd : AddSignature m s with
    | none => rw [hadd] at h; exact absurd h (by simp)
    | some rm =>
      rw [hadd] at h
      obtain ⟨hm, hM, hS⟩ := AddSignature_fields m s rm.1 rm.2 (by rw [hadd])
      have h2 := ih rm.2 h
      rw [h2]
      unfold BTCMultiSig.Address
      rw [hm, hM, hS]

/-- Witness for C5: attaching the example signatures in order 2,0,1
yields the same address as attaching them in order 0,1,2, and both
equal the address of the untouched value. -/
theorem address_invariant_under_attachment_witness :
    BTCMultiSig.Address hashEx ((attachAll msEx [sigEx 2, sigEx 0, sigEx 1]).getD msEx) =
        BTCMultiSig.Address hashEx msEx ∧
    BTCMultiSig.Address hashEx ((attachAll msEx [sigEx 0, sigEx 1, sigEx 2]).getD msEx) =
        BTCMultiSig.Address hashEx msEx :=
  ⟨address_invariant_under_attachment hashEx msEx [sigEx 2, sigEx 0, sigEx 1] _ (by decide),
   address_invariant_under_attachment hashEx msEx [sigEx 0, sigEx 1, sigEx 2] _ (by decide)⟩

/-- Counterexample for C7: the claim says `NewBTCMultiSig` fails with
the missing-signers error exactly when `signers` is empty or nil, but
the source only checks `signers == nil`: an empty, non-nil signer list
with threshold 0 is accepted. -/
theorem new_multisig_accepts_empty_signers :
    NewBTCMultiSig [] 0 (some []) =
      Except.ok { Msg := [], M := 0, Signers := [], Signatures := [] } := rfl

/-- C7 as amended: `NewBTCMultiSig` fails with the missing-signers
error exactly when `signers` is nil; for a non-nil (possibly empty)
signer list it fails with the invalid-threshold error when `m < 0` or
`m > len(signers)`, and otherwise returns a `BTCMultiSig` with
threshold `m`, the given signers, and one zero-valued signature slot
per signer. -/
theorem new_multisig_error_classification :
    (∀ (msg : ByteStr) (m : Int),
      NewBTCMultiSig msg m none = Except.error MultiSigError.missSigners) ∧
    (∀ (msg : ByteStr) (m : Int) (ss : List Address),
      (m < 0 ∨ (ss.length : Int) < m) →
      NewBTCMultiSig msg m (some ss) = Except.error MultiSigError.invalidThreshold) ∧
    (∀ (msg : ByteStr) (m : Int) (ss : List Address),
      0 ≤ m → m ≤ (ss.length : Int) →
      NewBTCMultiSig msg m (some ss) =
        Except.ok { Msg := msg, M := m, Signers := ss,
                    Signatures := List.replicate ss.length emptySlot }) := by
  refine ⟨fun msg m => rfl, fun msg m ss h => ?_, fun msg m ss h0 h1 => ?_⟩
  · simp only [NewBTCMultiSig, if_pos h]
  · have : ¬ (m < 0 ∨ (ss.length : Int) < m) := by omega
    simp only [NewBTCMultiSig, if_neg this]

/-- Witness for C7's amended classification at concrete inputs. -/
theorem new_multisig_error_classification_witness :
    NewBTCMultiSig [1] (-1) (some []) = Except.error MultiSigError.invalidThreshold ∧
    NewBTCMultiSig [1] 1 (some [[2], [3]]) =
      Except.ok { Msg := [1], M := 1, Signers := [[2], [3]],
                  Signatures := List.replicate 2 emptySlot } :=
  ⟨new_multisig_error_classification.2.1 [1] (-1) [] (by decide),
   new_multisig_error_classification.2.2 [1] 1 [[2], [3]] (by decide) (by decide)⟩

/-- C8: for a signature whose slot index is within the signer list of a
well-formed multi-sig (one signature slot per signer), `AddSignature`
fails with the unexpected-signer error and leaves the value unchanged
when the claimed address differs from `Signers[Index]`, and stores the
signature at slot `Index` when it matches. -/
theorem addSignature_checks_claimed_signer
    (m : BTCMultiSig) (s : BTCSignature)
    (hlen : m.Signatures.length = m.Signers.length)
    (h0 : 0 ≤ s.Index) (h1 : s.Index < (m.Signers.length : Int)) :
    (s.Address ≠ m.Signers.getD s.Index.toNat [] →
      AddSignature m s = some (Except.error MultiSigError.notExpectedSigner, m)) ∧
    (s.Address = m.Signers.getD s.Index.toNat [] →
      AddSignature m s =
        some (Except.ok (), { m with Signatures := m.Signatures.set s.Index.toNat s })) := by
  constructor
  · intro hne
    simp only [AddSignature, if_pos (And.intro h0 h1), if_neg hne]
  · intro heq
    have h2 : s.Index < (m.Signatures.length : Int) := by rw [hlen]; exact h1
    simp only [AddSignature, if_pos (And.intro h0 h1), if_pos heq, if_pos h2]

/-- Witness for C8: on the example value, a wrong claimed address at
slot 0 is rejected with the value unchanged, and a matching signature
at slot 1 is stored at slot 1. -/
theorem addSignature_checks_claimed_signer_witness :
    (AddSignature msEx { Index := 0, Address := [5], Sign := some [9] } =
      some (Except.error MultiSigError.notExpectedSigner, msEx)) ∧
    (AddSignature msEx (sigEx 1) =
      some (Except.ok (), { msEx with Signatures := msEx.Signatures.set 1 (sigEx 1) })) :=
  ⟨(addSignature_checks_claimed_signer msEx { Index := 0, Address := [5], Sign := some [9] }
      (by decide) (by decide) (by decide)).1 (by decide),
   (addSignature_checks_claimed_signer msEx (sigEx 1)
      (by decide) (by decide) (by decide)).2 (by decide)⟩

/-- C10: `AddSignature` indexes the signer list without a bounds check,
so a signature whose `Index` is negative or at least `len(Signers)`
panics (modelled: `none`) rather than returning an error; on a
well-formed value the panic branch is unreachable exactly under the
precondition `0 ≤ Index < len(Signers)`. -/
theorem addSignature_out_of_bounds_panics (m : BTCMultiSig) (s : BTCSignature) :
    ((s.Index < 0 ∨ (m.Signers.length : Int) ≤ s.Index) → AddSignature m s = none) ∧
    (m.Signatures.length = m.Signers.length → 0 ≤ s.Index →
      s.Index < (m.Signers.length : Int) → (AddSignature m s).isSome = true) := by
  constructor
  · intro h
    have : ¬ (0 ≤ s.Index ∧ s.Index < (m.Signers.length : Int)) := by omega
    simp only [AddSignature, if_neg this]
  · intro hlen h0 h1
    have h2 : s.Index < (m.Signatures.length : Int) := by rw [hlen]; exact h1
    simp only [AddSignature, if_pos (And.intro h0 h1), if_pos h2]
    split <;> simp

/-- Witness for C10: out-of-range indices 5 and -1 panic on the example
value; the in-bounds index 1 does not. -/
theorem addSignature_out_of_bounds_panics_witness :
    AddSignature msEx { Index := 5, Address := [1], Sign := some [9] } = none ∧
    AddSignature msEx { Index := -1, Address := [1], Sign := some [9] } = none ∧
    (AddSignature msEx (sigEx 1)).isSome = true :=
  ⟨(addSignature_out_of_bounds_panics msEx { Index := 5, Address := [1], Sign := some [9] }).1
      (by decide),
   (addSignature_out_of_bounds_panics msEx { Index := -1, Address := [1], Sign := some [9] }).1
      (by decide),
   (addSignature_out_of_bounds_panics msEx (sigEx 1)).2 (by decide) (by decide) (by decide)⟩

/-- An in-range write through `setAtInt` succeeds as a plain `List.set`. -/
theorem setAtInt_some (l : List BTCSignature) (i : Int) (v : BTCSignature)
    (h0 : 0 ≤ i) (h1 : i < (l.length : Int)) :
    setAtInt l i v = some (l.set i.toNat v) := by
  simp only [setAtInt, if_pos (And.intro h0 h1)]

/-- Behaviour of the `FromBytes` reinsertion loop: with all indices in
range and pairwise distinct, it succeeds, preserves the length, writes
each item at its own index and leaves every other position of the
initial array untouched. -/
theorem insertAll_spec (items : List BTCSignature) :
    ∀ acc : List BTCSignature,
    (∀ s ∈ items, 0 ≤ s.Index ∧ s.Index < (acc.length : Int)) →
    List.Pairwise (fun a b => a.Index ≠ b.Index) items →
    ∃ res, insertAll acc items = some res ∧ res.length = acc.length ∧
      ∀ j : Nat,
        (∀ s ∈ items, s.Index = (j : Int) → res[j]? = some s) ∧
        ((∀ s ∈ items, s.Index ≠ (j : Int)) → res[j]? = acc[j]?) := by
  induction items with
  | nil =>
    intro acc _ _
    exact ⟨acc, rfl, rfl, fun j => ⟨fun s hs => absurd hs (List.not_mem_nil s), fun _ => rfl⟩⟩
  | cons s rest ih =>
    intro acc hbound hpair
    obtain ⟨hs0, hs1⟩ := hbound s (List.mem_cons_self s rest)
    have hset : setAtInt acc s.Index s = some (acc.set s.Index.toNat s) :=
      setAtInt_some acc s.Index s hs0 hs1
    have hlen2 : (acc.set s.Index.toNat s).length = acc.length :=
      List.length_set acc s.Index.toNat s
    have hbound2 : ∀ t ∈ rest, 0 ≤ t.Index ∧ t.Index < ((acc.set s.Index.toNat s).length : Int) := by
      intro t ht
      rw [hlen2]
      exact hbound t (List.mem_cons_of_mem s ht)
    obtain ⟨res, hres, hrlen, hspec⟩ :=
      ih (acc.set s.Index.toNat s) hbound2 (List.Pairwise.of_cons hpair)
    have hrun : insertAll acc (s :: rest) = some res := by
      simp only [insertAll, hset, hres]
    have hdist : ∀ t ∈ rest, s.Index ≠ t.Index := (List.pairwise_cons.mp hpair).1
    have hidxnat : s.Index.toNat < acc.length := by omega
    have hidxcast : s.Index = (s.Index.toNat : Int) := by omega
    refine ⟨res, hrun, by rw [hrlen, hlen2], fun j => ⟨?_, ?_⟩⟩
    · intro t ht htj
      rcases List.mem_cons.mp ht with heq | hmem
      · subst heq
        have hj : t.Index.toNat = j := by omega
        have hnone : ∀ u ∈ rest, u.Index ≠ (j : Int) := by
          intro u hu
          have := hdist u hu
          omega
        have := (hspec j).2 hnone
        rw [this, ← hj]
        exact List.getElem?_set_self (by omega)
      · exact (hspec j).1 t hmem htj
    · intro hnone
      have hsj : s.Index ≠ (j : Int) := hnone s (List.mem_cons_self s rest)
      have hrest : ∀ u ∈ rest, u.Index ≠ (j : Int) :=
        fun u hu => hnone u (List.mem_cons_of_mem s hu)
      have := (hspec j).2 hrest
      rw [this]
      exact List.getElem?_set_ne (by omega)

/-- The filled slots of a correctly-indexed signature array have
pairwise distinct indices. -/
theorem filled_pairwise (m : BTCMultiSig)
    (hidx : ∀ (i : Nat) (hi : i < m.Signatures.length),
      (m.Signatures[i]).Sign.isSome → (m.Signatures[i]).Index = (i : Int)) :
    List.Pairwise (fun a b => a.Index ≠ b.Index)
      (m.Signatures.filter (fun s => s.Sign.isSome)) := by
  have base : List.Pairwise
      (fun a b : BTCSignature => a.Sign.isSome → b.Sign.isSome → a.Index ≠ b.Index)
      m.Signatures := by
    rw [List.pairwise_iff_getElem]
    intro i j hi hj hij ha hb
    rw [hidx i hi ha, hidx j hj hb]
    omega
  refine List.Pairwise.imp_of_mem ?_ (List.Pairwise.filter _ base)
  intro a b hma hmb hr
  exact hr (List.mem_filter.mp hma).2 (List.mem_filter.mp hmb).2

/-- C6: for every multi-sig value with one signature slot per signer
whose filled slots carry their correct indices, `FromBytes ∘ Bytes`
succeeds and reproduces the message, threshold and signers, keeps every
filled slot exactly (index, address and signature bytes), and leaves
every other slot zero-valued — positional correspondence survives the
wire encoding's omission of empty slots. -/
theorem multisig_roundtrip_preserves_slots (m : BTCMultiSig)
    (hlen : m.Signatures.length = m.Signers.length)
    (hidx : ∀ (i : Nat) (hi : i < m.Signatures.length),
      (m.Signatures[i]).Sign.isSome → (m.Signatures[i]).Index = (i : Int)) :
    ∃ m2, BTCMultiSig.FromBytes (BTCMultiSig.Bytes m) = some m2 ∧
      m2.Msg = m.Msg ∧ m2.M = m.M ∧ m2.Signers = m.Signers ∧
      m2.Signatures.length = m.Signers.length ∧
      ∀ (i : Nat) (hi : i < m.Signatures.length),
        ((m.Signatures[i]).Sign.isSome → m2.Signatures[i]? = some (m.Signatures[i])) ∧
        (¬ (m.Signatures[i]).Sign.isSome → m2.Signatures[i]? = some emptySlot) := by
  have hbound : ∀ s ∈ m.Signatures.filter (fun s => s.Sign.isSome),
      0 ≤ s.Index ∧ s.Index < ((List.replicate m.Signers.length emptySlot).length : Int) := by
    intro s hs
    obtain ⟨hmem, hsome⟩ := List.mem_filter.mp hs
    obtain ⟨k, hk, hks⟩ := List.getElem_of_mem hmem
    have : s.Index = (k : Int) := by rw [← hks]; exact hidx k hk (by rw [hks]; exact hsome)
    rw [List.length_replicate, this]
    omega
  obtain ⟨res, hres, hrlen, hspec⟩ :=
    insertAll_spec (m.Signatures.filter (fun s => s.Sign.isSome))
      (List.replicate m.Signers.length emptySlot) hbound (filled_pairwise m hidx)
  refine ⟨{ BTCMultiSig.Bytes m with Signatures := res }, ?_, rfl, rfl, rfl, ?_, ?_⟩
  · simp only [BTCMultiSig.FromBytes, BTCMultiSig.Bytes, hres]
    rfl
  · rw [hrlen, List.length_replicate]
  · intro i hi
    constructor
    · intro hsome
      refine (hspec i).1 (m.Signatures[i]) (List.mem_filter.mpr ⟨List.getElem_mem hi, hsome⟩) ?_
      exact hidx i hi hsome
    · intro hnone
      have hnomem : ∀ s ∈ m.Signatures.filter (fun s => s.Sign.isSome), s.Index ≠ (i : Int) := by
        intro s hs hsi
        obtain ⟨hmem, hsome⟩ := List.mem_filter.mp hs
        obtain ⟨k, hk, hks⟩ := List.getElem_of_mem hmem
        have hki : s.Index = (k : Int) := by
          rw [← hks]; exact hidx k hk (by rw [hks]; exact hsome)
        have : k = i := by omega
        subst this
        rw [hks] at hnone
        exact hnone hsome
      rw [(hspec i).2 hnomem]
      exact List.getElem?_replicate_of_lt (by omega)

/-- Example multi-sig value with 5 signers and slots 1 and 3 filled,
used as the concrete round-trip witness. -/
def ms5 : BTCMultiSig :=
  { Msg := [7, 7], M := 2, Signers := [[1], [2], [3], [4], [5]],
    Signatures := [emptySlot,
                   { Index := 1, Address := [2], Sign := some [8, 1] },
                   emptySlot,
                   { Index := 3, Address := [4], Sign := some [8, 3] },
                   emptySlot] }

/-- Witness for C6: round-tripping the 2-of-5 example reproduces the
two filled slots and leaves the other three empty. -/
theorem multisig_roundtrip_preserves_slots_witness :
    ∃ m2, BTCMultiSig.FromBytes (BTCMultiSig.Bytes ms5) = some m2 ∧
      m2.Msg = ms5.Msg ∧ m2.M = ms5.M ∧ m2.Signers = ms5.Signers ∧
      m2.Signatures.length = ms5.Signers.length ∧
      ∀ (i : Nat) (hi : i < ms5.Signatures.length),
        ((ms5.Signatures[i]).Sign.isSome → m2.Signatures[i]? = some (ms5.Signatures[i])) ∧
        (¬ (ms5.Signatures[i]).Sign.isSome → m2.Signatures[i]? = some emptySlot) :=
  multisig_roundtrip_preserves_slots ms5 (by decide) (by decide)

/-! ## Transition engine and Ethereum tracker handlers (package event)

The handler bodies (`Broadcasting` … `Cleanup`) and the engine wiring
(`init` of the event package) are source code of the repository; the
collaborators they call (`transition.Engine`, the `ethereum` status
constants, `ethereum.Tracker`, the job store and the tracker store) are
declared elsewhere and are modelled from the spec. -/

/-- Modelled from the spec: `transition.Status`, an opaque small
integer naming a lifecycle phase; zero is reserved for
"no such state" / terminal-deleted (§3). -/
abbrev Status := Nat

namespace ethereum

/-- Modelled from the spec: the five Ethereum tracker phases
`New → BusyBroadcasting → BusyFinalizing → Finalized → Minted` (§4.1);
concrete ordinals are opaque, only distinctness and nonzeroness matter. -/
def New : Status := 1

/-- Modelled from the spec: see `ethereum.New`. -/
def BusyBroadcasting : Status := 2

/-- Modelled from the spec: see `ethereum.New`. -/
def BusyFinalizing : Status := 3

/-- Modelled from the spec: see `ethereum.New`. -/
def Finalized : Status := 4

/-- Modelled from the spec: see `ethereum.New`. -/
def Minted : Status := 5

/-- Modelled from the spec: the transition names registered by the
event package `init`; concrete strings are opaque, only distinctness
matters. -/
def BROADCASTING : String := "BROADCASTING"

/-- Modelled from the spec: see `ethereum.BROADCASTING`. -/
def FINALIZING : String := "FINALIZING"

/-- Modelled from the spec: see `ethereum.BROADCASTING`. -/
def FINALIZE : String := "FINALIZE"

/-- Modelled from the spec: see `ethereum.BROADCASTING`. -/
def MINTING : String := "MINTING"

/-- Modelled from the spec: see `ethereum.BROADCASTING`. -/
def CLEANUP : String := "CLEANUP"

end ethereum

/-- Job type tags registered by the event package (source constants
`JobTypeETHBroadcast`, `JobTypeETHCheckfinalty`). -/
def JobTypeETHBroadcast : String := "ethBroadcast"

/-- See `JobTypeETHBroadcast`. -/
def JobTypeETHCheckfinalty : String := "ethCheckFinality"

/-- Modelled from the spec: a job record
`{Type, TrackerName, TargetState, RetryCount, Done}` (§3); the concrete
`Job` type is declared outside the given sources.  `Typ` stands for the
Go field `Type` (a Lean keyword). -/
structure Job where
  Typ : String
  TrackerName : String
  TargetState : Status
  RetryCount : Nat
  Done : Bool
deriving DecidableEq, Repr

/-- Modelled from the spec: a job's identity key is derived
deterministically from `(TrackerName, TargetState)` (§3). -/
abbrev JobID := String × Status

/-- Modelled from the spec: the deterministic key of a job. -/
def jobKey (j : Job) : JobID := (j.TrackerName, j.TargetState)

/-- Modelled from the spec: `NewETHBroadcast(name, state)` builds a
fresh broadcast job for the tracker with zero retries, not done. -/
def NewETHBroadcast (name : String) (state : Status) : Job :=
  { Typ := JobTypeETHBroadcast, TrackerName := name, TargetState := state,
    RetryCount := 0, Done := false }

/-- Modelled from the spec: `NewETHCheckFinality(name, state)` builds a
fresh finality-check job. -/
def NewETHCheckFinality (name : String) (state : Status) : Job :=
  { Typ := JobTypeETHCheckfinalty, TrackerName := name, TargetState := state,
    RetryCount := 0, Done := false }

/-- Modelled from the spec: the job store's persisted content, an
association of deterministic keys to job records (§4.3). -/
abbrev JobStore := List (JobID × Job)

/-- Errors surfaced by the handlers; the source wraps free-form strings,
only the distinction between the cases is modelled. -/
inductive HErr where
  | invalidStateBroadcast (s : Status)
  | invalidStateFinalizing (s : Status)
  | invalidStateFinalize (s : Status)
  | invalidStateMint (s : Status)
  | jobNotFound
  | failedGetJob
  | deleteJobFailed
deriving DecidableEq, Repr

/-- Modelled from the spec: `SaveJob` persists under the job's
deterministic key, overwriting any previous record (§4.3). -/
def SaveJob (js : JobStore) (j : Job) : JobStore :=
  js.filter (fun kv => kv.1 ≠ jobKey j) ++ [(jobKey j, j)]

/-- Modelled from the spec: `GetJob(id)` fails with `JobNotFound` when
absent (§4.3). -/
def GetJob (js : JobStore) (id : JobID) : Except HErr Job :=
  match js.find? (fun kv => kv.1 = id) with
  | some kv => Except.ok kv.2
  | none => Except.error HErr.jobNotFound

/-- Modelled from the spec: `DeleteJob(job)` removes the persisted
record and fails when the underlying delete fails (modelled: when the
record is absent) (§4.3). -/
def DeleteJob (js : JobStore) (j : Job) : Except HErr JobStore :=
  if js.any (fun kv => kv.1 = jobKey j) then
    Except.ok (js.filter (fun kv => kv.1 ≠ jobKey j))
  else Except.error HErr.deleteJobFailed

/-- Modelled from the spec: `ethereum.Tracker`, the persisted record of
one in-flight custody operation — name, current state, recorded
validator votes, the chain-specific finality predicate's value, and the
completion flag consulted by `Minting` (§3, §4.2). -/
structure EthTracker where
  TrackerName : String
  State : Status
  Votes : List Address
  FinalizedFlag : Bool
  TaskCompleted : Bool
deriving DecidableEq, Repr

/-- Modelled from the spec: `CheckIfVoted(addr)` — whether this
validator already recorded its vote (§6). -/
def EthTracker.CheckIfVoted (t : EthTracker) (a : Address) : Bool :=
  t.Votes.contains a

/-- Modelled from the spec: `GetVotes()` — the number of recorded
votes (§6). -/
def EthTracker.GetVotes (t : EthTracker) : Nat := t.Votes.length

/-- Modelled from the spec: the chain-specific `Finalized()`
predicate (§4.2). -/
def EthTracker.Finalized (t : EthTracker) : Bool := t.FinalizedFlag

/-- Modelled from the spec: `GetJobID(state)` derives the deterministic
job key from the tracker's name and the job's target state (§3). -/
def EthTracker.GetJobID (t : EthTracker) (s : Status) : JobID := (t.TrackerName, s)

/-- Modelled from the spec: the tracker store's persisted records,
keyed by tracker name (§4.5). -/
abbrev TrackerRecords := List (String × EthTracker)

/-- Modelled from the spec: deleting a tracker record; returns the
store without the record and whether a record was removed; the
underlying store error is nil in this model. -/
def TrackerRecords.Delete (ts : TrackerRecords) (name : String) : TrackerRecords × Bool :=
  (ts.filter (fun kv => kv.1 ≠ name), ts.any (fun kv => kv.1 = name))

/-- `ethereum.TrackerCtx`: the per-invocation context a handler
receives — the tracker (a mutable reference in Go, so handlers return
the updated value), the job store, the current validator's address and
the tracker store. -/
structure TrackerCtx where
  Tracker : EthTracker
  JobStore : JobStore
  CurrNodeAddr : Address
  TrackerStore : TrackerRecords
deriving DecidableEq, Repr

/-- The `Broadcasting` handler (event package).  The Go context cast
cannot fail in this typed embedding; `SaveJob` is modelled total. -/
def Broadcasting (ctx : TrackerCtx) : Except HErr Unit × TrackerCtx :=
  let tracker := ctx.Tracker
  if tracker.State ≠ ethereum.New then
    (Except.error (HErr.invalidStateBroadcast tracker.State), ctx)
  else
    let tracker2 := { tracker with State := ethereum.BusyBroadcasting }
    let job := NewETHBroadcast tracker2.TrackerName tracker2.State
    (Except.ok (), { ctx with Tracker := tracker2, JobStore := SaveJob ctx.JobStore job })

/-- The `Finalizing` handler (event package): reject a wrong state,
create the finality-check job when this node has not voted and the
broadcast job is done, and advance to `BusyFinalizing` once any vote is
recorded. -/
def Finalizing (ctx : TrackerCtx) : Except HErr Unit × TrackerCtx :=
  let tracker := ctx.Tracker
  if tracker.State ≠ ethereum.BusyBroadcasting then
    (Except.error (HErr.invalidStateFinalizing tracker.State), ctx)
  else
    let voted := tracker.CheckIfVoted ctx.CurrNodeAddr
    let step : Except HErr JobStore :=
      if voted then Except.ok ctx.JobStore
      else
        match GetJob ctx.JobStore (tracker.GetJobID ethereum.BusyBroadcasting) with
        | Except.error _ => Except.error HErr.failedGetJob
        | Except.ok bjob =>
          if bjob.Done then
            Except.ok (SaveJob ctx.JobStore
              (NewETHCheckFinality tracker.TrackerName ethereum.BusyFinalizing))
          else Except.ok ctx.JobStore
    match step with
    | Except.error e => (Except.error e, ctx)
    | Except.ok js2 =>
      let tracker2 :=
        if tracker.GetVotes > 0 then { tracker with State := ethereum.BusyFinalizing }
        else tracker
      (Except.ok (), { ctx with Tracker := tracker2, JobStore := js2 })

/-- The `Finalization` handler (event package): reject a wrong state,
re-create the finality-check job when this node has not voted, and
advance to `Finalized` once the tracker's finality predicate holds. -/
def Finalization (ctx : TrackerCtx) : Except HErr Unit × TrackerCtx :=
  let tracker := ctx.Tracker
  if tracker.State ≠ ethereum.BusyFinalizing then
    (Except.error (HErr.invalidStateFinalize tracker.State), ctx)
  else
    let js2 :=
      if tracker.CheckIfVoted ctx.CurrNodeAddr then ctx.JobStore
      else SaveJob ctx.JobStore (NewETHCheckFinality tracker.TrackerName tracker.State)
    let tracker2 :=
      if tracker.Finalized then { tracker with State := ethereum.Finalized } else tracker
    (Except.ok (), { ctx with Tracker := tracker2, JobStore := js2 })

/-- The `Minting` handler (event package): reject a wrong state and
advance to `Minted` once the completion flag is set. -/
def Minting (ctx : TrackerCtx) : Except HErr Unit × TrackerCtx :=
  let tracker := ctx.Tracker
  if tracker.State ≠ ethereum.Finalized then
    (Except.error (HErr.invalidStateMint tracker.State), ctx)
  else
    let tracker2 :=
      if tracker.TaskCompleted then { tracker with State := ethereum.Minted } else tracker
    (Except.ok (), { ctx with Tracker := tracker2 })

/-- The `Cleanup` handler (event package), exactly as written: it does
not check the tracker's state; it fetches and deletes the job keyed by
`BusyBroadcasting`, then fetches the job keyed by `BusyBroadcasting`
again (the source repeats the same key although its comment says it
deletes the check-finality job), deletes it, and deletes the tracker
record; `if err != nil || !res` returns the nil error when only `res`
is false. -/
def Cleanup (ctx : TrackerCtx) : Except HErr Unit × TrackerCtx :=
  let tracker := ctx.Tracker
  match GetJob ctx.JobStore (tracker.GetJobID ethereum.BusyBroadcasting) with
  | Except.error _ => (Except.error HErr.failedGetJob, ctx)
  | Except.ok bjob =>
    match DeleteJob ctx.JobStore bjob with
    | Except.error e => (Except.error e, ctx)
    | Except.ok js1 =>
      match GetJob js1 (tracker.GetJobID ethereum.BusyBroadcasting) with
      | Except.error _ => (Except.error HErr.failedGetJob, { ctx with JobStore := js1 })
      | Except.ok fjob =>
        match DeleteJob js1 fjob with
        | Except.error e => (Except.error e, { ctx with JobStore := js1 })
        | Except.ok js2 =>
          let del := ctx.TrackerStore.Delete tracker.TrackerName
          (Except.ok (), { ctx with JobStore := js2, TrackerStore := del.1 })

/-- Tags naming the handler a transition is wired to (Go stores the
function pointer; only its identity matters here). -/
inductive HandlerTag where
  | broadcasting
  | finalizing
  | finalization
  | minting
  | cleanup
deriving DecidableEq, Repr

/-- `transition.Transition`: a named, directed edge between two
statuses and the handler executing it. -/
structure Transition where
  Name : String
  Fn : HandlerTag
  From : Status
  To : Status
deriving DecidableEq, Repr

/-- Registration-time errors of the engine (§4.1). -/
inductive EngineError where
  | invalidStatus
  | duplicateName
deriving DecidableEq, Repr

/-- Modelled from the spec: `transition.Engine` owns the closed status
set declared at construction and a mapping from transition name to
transition (§3). -/
structure Engine where
  statuses : List Status
  transitions : List (String × Transition)
deriving DecidableEq, Repr

/-- Modelled from the spec: `transition.NewEngine(statuses)` constructs
an engine whose valid status set is exactly `statuses` and with no
transitions registered (§4.1). -/
def NewEngine (statuses : List Status) : Engine :=
  { statuses := statuses, transitions := [] }

/-- Modelled from the spec: `Register` fails with `InvalidStatus` when
`From`, or a nonzero `To`, is not in the declared set, and with
`DuplicateName` when the name is already registered (§4.1). -/
def Engine.Register (e : Engine) (t : Transition) : Except EngineError Engine :=
  if ¬ e.statuses.contains t.From then Except.error EngineError.invalidStatus
  else if t.To ≠ 0 ∧ ¬ e.statuses.contains t.To then Except.error EngineError.invalidStatus
  else if e.transitions.any (fun kv => kv.1 = t.Name) then Except.error EngineError.duplicateName
  else Except.ok { e with transitions := e.transitions ++ [(t.Name, t)] }

/-- The `BROADCASTING : New → BusyBroadcasting` edge registered by the
event package `init`. -/
def edgeBroadcasting : Transition :=
  { Name := ethereum.BROADCASTING, Fn := HandlerTag.broadcasting,
    From := ethereum.New, To := ethereum.BusyBroadcasting }

/-- The `FINALIZING : BusyBroadcasting → BusyFinalizing` edge. -/
def edgeFinalizing : Transition :=
  { Name := ethereum.FINALIZING, Fn := HandlerTag.finalizing,
    From := ethereum.BusyBroadcasting, To := ethereum.BusyFinalizing }

/-- The `FINALIZE : BusyFinalizing → Finalized` edge. -/
def edgeFinalize : Transition :=
  { Name := ethereum.FINALIZE, Fn := HandlerTag.finalization,
    From := ethereum.BusyFinalizing, To := ethereum.Finalized }

/-- The `MINTING : Finalized → Minted` edge. -/
def edgeMinting : Transition :=
  { Name := ethereum.MINTING, Fn := HandlerTag.minting,
    From := ethereum.Finalized, To := ethereum.Minted }

/-- The `CLEANUP : Minted → 0` (deleted) edge. -/
def edgeCleanup : Transition :=
  { Name := ethereum.CLEANUP, Fn := HandlerTag.cleanup,
    From := ethereum.Minted, To := 0 }

/-- The `init` of the event package: build the Ethereum engine over the
five tracker statuses and register the five forward transitions (the
source panics on a registration error; here the error propagates). -/
def initEthEngine : Except EngineError Engine := do
  let e0 := NewEngine [ethereum.New, ethereum.BusyBroadcasting, ethereum.BusyFinalizing,
    ethereum.Finalized, ethereum.Minted]
  let e1 ← e0.Register edgeBroadcasting
  let e2 ← e1.Register edgeFinalizing
  let e3 ← e2.Register edgeFinalize
  let e4 ← e3.Register edgeMinting
  e4.Register edgeCleanup

/-- C9: the Ethereum engine's registered transition graph is exactly
the five-edge forward chain `BROADCASTING : New → BusyBroadcasting`,
`FINALIZING : BusyBroadcasting → BusyFinalizing`,
`FINALIZE : BusyFinalizing → Finalized`, `MINTING : Finalized → Minted`
and `CLEANUP : Minted → 0` (deleted), every registration succeeding and
no other (in particular no backward) edge registered. -/
theorem eth_engine_graph_exact :
    initEthEngine = Except.ok
      { statuses := [ethereum.New, ethereum.BusyBroadcasting, ethereum.BusyFinalizing,
                     ethereum.Finalized, ethereum.Minted],
        transitions := [(ethereum.BROADCASTING, edgeBroadcasting),
                        (ethereum.FINALIZING, edgeFinalizing),
                        (ethereum.FINALIZE, edgeFinalize),
                        (ethereum.MINTING, edgeMinting),
                        (ethereum.CLEANUP, edgeCleanup)] } := rfl

/-- C1 as amended: the four phase handlers `Broadcasting`, `Finalizing`,
`Finalization` and `Minting` succeed only when the tracker's state
equals the transition's declared `From`; on a mismatch they return an
error with the whole context — tracker, jobs and stores — unchanged.
(`Cleanup` performs no such check; see the counterexample.) -/
theorem phase_handlers_reject_wrong_state (ctx : TrackerCtx) :
    (ctx.Tracker.State ≠ ethereum.New →
      Broadcasting ctx = (Except.error (HErr.invalidStateBroadcast ctx.Tracker.State), ctx)) ∧
    (ctx.Tracker.State ≠ ethereum.BusyBroadcasting →
      Finalizing ctx = (Except.error (HErr.invalidStateFinalizing ctx.Tracker.State), ctx)) ∧
    (ctx.Tracker.State ≠ ethereum.BusyFinalizing →
      Finalization ctx = (Except.error (HErr.invalidStateFinalize ctx.Tracker.State), ctx)) ∧
    (ctx.Tracker.State ≠ ethereum.Finalized →
      Minting ctx = (Except.error (HErr.invalidStateMint ctx.Tracker.State), ctx)) := by
  refine ⟨fun h => ?_, fun h => ?_, fun h => ?_, fun h => ?_⟩
  · simp only [Broadcasting]; rw [if_pos h]
  · simp only [Finalizing]; rw [if_pos h]
  · simp only [Finalization]; rw [if_pos h]
  · simp only [Minting]; rw [if_pos h]

/-- Context whose tracker sits in the reserved status 0, matching none
of the four declared `From` states. -/
def ctx0 : TrackerCtx :=
  { Tracker := { TrackerName := "t", State := 0, Votes := [],
                 FinalizedFlag := false, TaskCompleted := false },
    JobStore := [], CurrNodeAddr := [], TrackerStore := [] }

/-- Witness for C1's amended statement: all four phase handlers reject
the status-0 context unchanged. -/
theorem phase_handlers_reject_wrong_state_witness :
    Broadcasting ctx0 = (Except.error (HErr.invalidStateBroadcast 0), ctx0) ∧
    Finalizing ctx0 = (Except.error (HErr.invalidStateFinalizing 0), ctx0) ∧
    Finalization ctx0 = (Except.error (HErr.invalidStateFinalize 0), ctx0) ∧
    Minting ctx0 = (Except.error (HErr.invalidStateMint 0), ctx0) :=
  ⟨(phase_handlers_reject_wrong_state ctx0).1 (by decide),
   (phase_handlers_reject_wrong_state ctx0).2.1 (by decide),
   (phase_handlers_reject_wrong_state ctx0).2.2.1 (by decide),
   (phase_handlers_reject_wrong_state ctx0).2.2.2 (by decide)⟩

/-- The broadcast job the `Broadcasting` handler would have stored for
tracker `"t"`. -/
def bjobT : Job := NewETHBroadcast "t" ethereum.BusyBroadcasting

/-- A tracker for `"t"` still in state `New`. -/
def trackerNewT : EthTracker :=
  { TrackerName := "t", State := ethereum.New, Votes := [],
    FinalizedFlag := false, TaskCompleted := false }

/-- Context with the tracker in state `New` (not `Minted`) and its
broadcast job present. -/
def ctxNew : TrackerCtx :=
  { Tracker := trackerNewT,
    JobStore := [(("t", ethereum.BusyBroadcasting), bjobT)],
    CurrNodeAddr := [], TrackerStore := [("t", trackerNewT)] }

/-- Counterexample for C1: `Cleanup` invoked on a tracker whose state
(`New`) differs from the transition's declared `From` (`Minted`) does
return an error, but the job store is NOT left unchanged — the
broadcasting job has been deleted, because `Cleanup` never checks the
tracker's state before mutating. -/
theorem cleanup_mutates_jobstore_on_state_mismatch :
    ctxNew.Tracker.State ≠ ethereum.Minted ∧
    Cleanup ctxNew = (Except.error HErr.failedGetJob, { ctxNew with JobStore := [] }) ∧
    ctxNew.JobStore ≠ [] :=
  ⟨by decide, rfl, by decide⟩

/-- The finality-check job for tracker `"t"`, keyed by
`BusyFinalizing`. -/
def fjobT : Job := NewETHCheckFinality "t" ethereum.BusyFinalizing

/-- A tracker for `"t"` in state `Minted`. -/
def trackerMintedT : EthTracker :=
  { TrackerName := "t", State := ethereum.Minted, Votes := [],
    FinalizedFlag := true, TaskCompleted := true }

/-- Context with the tracker in `Minted`, both its jobs present and its
record in the tracker store — exactly the situation `Cleanup` is meant
to clear. -/
def ctxMinted : TrackerCtx :=
  { Tracker := trackerMintedT,
    JobStore := [(("t", ethereum.BusyBroadcasting), bjobT),
                 (("t", ethereum.BusyFinalizing), fjobT)],
    CurrNodeAddr := [], TrackerStore := [("t", trackerMintedT)] }

/-- C3 (code bug): run on a `Minted` tracker with both jobs present,
`Cleanup` deletes the broadcasting job, then — because the source
fetches the `BusyBroadcasting` key a second time where its own comment
says it deletes the check-finality job — fails to refetch the job it
just deleted and returns an error; the finality-check job and the
tracker record survive, contradicting the claim that both jobs and the
tracker are deleted. -/
theorem cleanup_leaves_finality_job :
    Cleanup ctxMinted =
      (Except.error HErr.failedGetJob,
       { ctxMinted with JobStore := [(("t", ethereum.BusyFinalizing), fjobT)] }) ∧
    (("t", ethereum.BusyFinalizing), fjobT) ∈ (Cleanup ctxMinted).2.JobStore ∧
    (Cleanup ctxMinted).2.TrackerStore = [("t", trackerMintedT)] :=
  ⟨rfl, by decide, by decide⟩

/-! ## Gas-metered chain state (package storage, gasChainState.go)

`storage.Gas` is a `uint64`; arithmetic reduces modulo 2^64.  The
crucial semantic detail of the source is that every method of
`gasCalculator` is declared on a VALUE receiver
(`func (g gasCalculator) Consume(...)`), so `g.consumed += cost`
mutates a copy that is discarded when the method returns; the
embedding's `Consume` returns the copy's final state as well as the
Go return value, and the `GasChainState` operations — faithfully to the
value-receiver dispatch — keep their original calculator. -/

/-- The uint64 modulus. -/
def U64 : Nat := 2 ^ 64

/-- Gas cost category `WRITEFLAT` (source constant 200). -/
def WRITEFLAT : Nat := 200

/-- Gas cost category `WRITEBYTES` (source constant 20). -/
def WRITEBYTES : Nat := 20

/-- Gas cost category `READFLAT` (source constant 20). -/
def READFLAT : Nat := 20

/-- Gas cost category `READBYTES` (source constant 2). -/
def READBYTES : Nat := 2

/-- Gas cost category `CHECKEXIST` (source constant 20). -/
def CHECKEXIST : Nat := 20

/-- Gas cost category `DELETE` (source constant 50). -/
def DELETE : Nat := 50

/-- `storage.gasCalculator`: the per-block gas limit and the gas
consumed so far (both `uint64`). -/
structure gasCalculator where
  limit : Nat
  consumed : Nat
deriving DecidableEq, Repr

/-- `storage.NewGasCalculator(limit)`. -/
def NewGasCalculator (limit : Nat) : gasCalculator :=
  { limit := limit, consumed := 0 }

/-- `gasCalculator.Consume(amount, category, allowOverflow)` as the
source writes it, on the method's (value-receiver) copy: returns the Go
boolean and the copy's final state.  The caller's calculator is NOT
this final state — the Go value receiver throws it away. -/
def gasCalculator.Consume (g : gasCalculator) (amount category : Nat)
    (allowOverflow : Bool) : Bool × gasCalculator :=
  let currentGasCost := (amount * category) % U64
  if allowOverflow then
    (true, { g with consumed := (g.consumed + currentGasCost) % U64 })
  else
    if g.limit ≤ g.consumed then (false, g)
    else (true, { g with consumed := (g.consumed + currentGasCost) % U64 })

/-- `gasCalculator.GetConsumed()`. -/
def gasCalculator.GetConsumed (g : gasCalculator) : Nat := g.consumed

/-- `gasCalculator.IsEnough()`. -/
def gasCalculator.IsEnough (g : gasCalculator) : Bool := g.limit ≤ g.consumed

/-- Modelled from the spec: the underlying chain-state key/value
capability (§6), an association of keys to values; the serializer and
tree plumbing are external. -/
abbrev ChainKV := List (ByteStr × ByteStr)

/-- Modelled from the spec: underlying `ChainState.Set` (overwrite or
append). -/
def ChainKV.setKV (c : ChainKV) (k v : ByteStr) : ChainKV :=
  c.filter (fun kv => kv.1 ≠ k) ++ [(k, v)]

/-- Modelled from the spec: underlying `ChainState.Get`; a missing key
yields the nil (empty) byte slice. -/
def ChainKV.getKV (c : ChainKV) (k : ByteStr) : ByteStr :=
  match c.find? (fun kv => kv.1 = k) with
  | some kv => kv.2
  | none => []

/-- Modelled from the spec: underlying `ChainState.Exists`. -/
def ChainKV.existsKV (c : ChainKV) (k : ByteStr) : Bool :=
  c.any (fun kv => kv.1 = k)

/-- Modelled from the spec: underlying `ChainState.Remove`, returning
the removed value and whether a record was removed. -/
def ChainKV.removeKV (c : ChainKV) (k : ByteStr) : ChainKV × ByteStr × Bool :=
  (c.filter (fun kv => kv.1 ≠ k), ChainKV.getKV c k, ChainKV.existsKV c k)

/-- `storage.GasChainState`: the chain state plus its gas calculator. -/
structure GasChainState where
  chain : ChainKV
  gcalc : gasCalculator
deriving DecidableEq, Repr

/-- Error returned by the gas-metered `Set` (`ErrExceedGasLimit`). -/
inductive GasError where
  | exceedGasLimit
deriving DecidableEq, Repr

/-- `GasChainState.Set` as written: consume `WRITEFLAT` (checked) and
`WRITEBYTES * len(value)` (overflow allowed).  Both `Consume` calls run
on a copy of the calculator (value receiver), so only their booleans
survive; the stored calculator is unchanged. -/
def GasChainState.Set (g : GasChainState) (k v : ByteStr) :
    Except GasError GasChainState :=
  let r1 := g.gcalc.Consume 1 WRITEFLAT false
  if ¬ r1.1 then Except.error GasError.exceedGasLimit
  else
    let chain2 := g.chain.setKV k v
    let r2 := g.gcalc.Consume v.length WRITEBYTES true
    let _ := r2
    Except.ok { g with chain := chain2 }

/-- `GasChainState.Get` as written: on a failed flat charge it logs and
returns nil; the byte charge allows overflow.  The calculator is
unchanged (value receiver). -/
def GasChainState.Get (g : GasChainState) (k : ByteStr) : ByteStr × GasChainState :=
  let r1 := g.gcalc.Consume 1 READFLAT false
  if ¬ r1.1 then ([], g)
  else
    let v := g.chain.getKV k
    let r2 := g.gcalc.Consume v.length READBYTES true
    let _ := r2
    (v, g)

/-- `GasChainState.Exists` as written. -/
def GasChainState.Exists (g : GasChainState) (k : ByteStr) : Bool × GasChainState :=
  let r1 := g.gcalc.Consume 1 CHECKEXIST false
  if ¬ r1.1 then (false, g)
  else (g.chain.existsKV k, g)

/-- `GasChainState.Remove` as written. -/
def GasChainState.Remove (g : GasChainState) (k : ByteStr) :
    (ByteStr × Bool) × GasChainState :=
  let r1 := g.gcalc.Consume 1 DELETE false
  if ¬ r1.1 then (([], false), g)
  else
    let r := g.chain.removeKV k
    ((r.2.1, r.2.2), { g with chain := r.1 })

/-- One store operation of the claim's Get/Set/Exists/Remove
alphabet. -/
inductive StoreOp where
  | opSet (k v : ByteStr)
  | opGet (k : ByteStr)
  | opExists (k : ByteStr)
  | opRemove (k : ByteStr)
deriving DecidableEq, Repr

/-- Run one operation, keeping the store unchanged when `Set` fails
(the caller sees the error; results of reads are dropped). -/
def applyOp (g : GasChainState) : StoreOp → GasChainState
  | StoreOp.opSet k v =>
    match g.Set k v with
    | Except.error _ => g
    | Except.ok g2 => g2
  | StoreOp.opGet k => (g.Get k).2
  | StoreOp.opExists k => (g.Exists k).2
  | StoreOp.opRemove k => (g.Remove k).2

/-- Run a sequence of operations. -/
def applyOps (g : GasChainState) (ops : List StoreOp) : GasChainState :=
  ops.foldl applyOp g

/-- Each single operation leaves the calculator exactly as it was:
the value-receiver `Consume` updates only a discarded copy. -/
theorem applyOp_calc (g : GasChainState) (op : StoreOp) : (applyOp g op).gcalc = g.gcalc := by
  cases op with
  | opSet k v =>
    simp only [applyOp, GasChainState.Set]
    split
    · rfl
    · rename_i g2 heq
      split at heq
      · exact absurd heq (by simp)
      · injection heq with h2
        rw [← h2]
  | opGet k =>
    simp only [applyOp, GasChainState.Get]
    split
    · rfl
    · rfl
  | opExists k =>
    simp only [applyOp, GasChainState.Exists]
    split
    · rfl
    · rfl
  | opRemove k =>
    simp only [applyOp, GasChainState.Remove]
    split
    · rfl
    · rfl

/-- C2 (code bug): because every `gasCalculator` method runs on a value
receiver, no store operation ever changes the stored calculator — after
any sequence of Get/Set/Exists/Remove the accumulated consumed gas is
still the initial 0, never the claimed fixed-plus-per-byte total; in
particular, with limit 1, a 1-byte `Set` (claimed cost 200 + 20·1 = 220)
succeeds, a second `Set` succeeds as well instead of failing at the
exhausted budget, and the consumed counter still reads 0. -/
theorem gas_consumption_never_accumulates :
    (∀ (g : GasChainState) (ops : List StoreOp), (applyOps g ops).gcalc = g.gcalc) ∧
    ((applyOps { chain := [], gcalc := NewGasCalculator 1000 }
        [StoreOp.opSet [1] [2], StoreOp.opGet [1]]).gcalc.GetConsumed = 0) ∧
    (applyOp { chain := [], gcalc := NewGasCalculator 1 } (StoreOp.opSet [1] [2])
        = { chain := [([1], [2])], gcalc := NewGasCalculator 1 }) ∧
    (applyOp (applyOp { chain := [], gcalc := NewGasCalculator 1 } (StoreOp.opSet [1] [2]))
        (StoreOp.opSet [3] [4])
        = { chain := [([1], [2]), ([3], [4])], gcalc := NewGasCalculator 1 }) := by
  refine ⟨fun g ops => ?_, by decide, by decide, by decide⟩
  induction ops generalizing g with
  | nil => rfl
  | cons op rest ih =>
    show (applyOps (applyOp g op) rest).gcalc = g.gcalc
    rw [ih (applyOp g op), applyOp_calc]

/-! ## Bitcoin tracker store (package bitcoin, TrackerStore)

`GetTrackerForLock` and `SetTracker` are source code; the underlying
ordered key/value store (`storage.State` with `IterateRange`), the
serializer (modelled as the identity) and the `bitcoin.Tracker` method
set are modelled from the spec. -/

/-- Lexicographic byte-string order (Go `bytes.Compare < 0`): the
ordered store iterates keys in this order. -/
def ltBytes : ByteStr → ByteStr → Bool
  | [], [] => false
  | [], _ :: _ => true
  | _ :: _, [] => false
  | a :: as, b :: bs => if a < b then true else if b < a then false else ltBytes as bs

/-- Nonstrict byte-string order. -/
def leBytes (a b : ByteStr) : Bool := ltBytes a b || a == b

/-- Modelled from the spec: `bitcoin.Tracker`, reduced to the fields
the store consults — its name, the locked balance used to pick the
most-available tracker, and the availability report (§3, §4.5). -/
structure BTracker where
  Name : ByteStr
  CurrentBalance : Int
  available : Bool
deriving DecidableEq, Repr

/-- Modelled from the spec: `Tracker.IsAvailable()` (§4.5). -/
def BTracker.IsAvailable (t : BTracker) : Bool := t.available

/-- Modelled from the spec: `Tracker.GetBalance()` returns
`CurrentBalance` (the source compares `GetBalance()` against the
running minimum and stores `CurrentBalance` into it). -/
def BTracker.GetBalance (t : BTracker) : Int := t.CurrentBalance

/-- ASCII lower-casing of one byte (`strings.ToLower` on the names the
store builds keys from). -/
def asciiToLower (c : Nat) : Nat := if 65 ≤ c ∧ c ≤ 90 then c + 32 else c

/-- `keyFromName(name)`: the lower-cased name (source file of
`TrackerStore`). -/
def keyFromName (name : ByteStr) : ByteStr := name.map asciiToLower

/-- String literals as byte strings (ASCII code points). -/
def strBytes (s : String) : ByteStr := s.data.map Char.toNat

/-- `bitcoin.TrackerStore`: the key prefix and the ordered store
content, an ascending-by-key association list whose values are the
(identity-serialized) trackers. -/
structure TrackerStoreB where
  pfx : ByteStr
  state : List (ByteStr × BTracker)
deriving DecidableEq, Repr

/-- Modelled from the spec: a write to the ordered store keeps the key
order (sorted insert, overwriting an equal key). -/
def stateSet : List (ByteStr × BTracker) → ByteStr → BTracker → List (ByteStr × BTracker)
  | [], k, v => [(k, v)]
  | (k0, v0) :: rest, k, v =>
    if ltBytes k k0 then (k, v) :: (k0, v0) :: rest
    else if k = k0 then (k, v) :: rest
    else (k0, v0) :: stateSet rest k v

/-- `TrackerStore.SetTracker(name, tracker)`: stamp the name into the
tracker and write it under the prefixed, lower-cased key. -/
def SetTracker (ts : TrackerStoreB) (name : ByteStr) (tracker : BTracker) : TrackerStoreB :=
  let tracker2 := { tracker with Name := name }
  { ts with state := stateSet ts.state (ts.pfx ++ keyFromName name) tracker2 }

/-- The loop body of `GetTrackerForLock` over the visited trackers, as
written: the running minimum starts at the caller's sentinel and a
tracker replaces the candidate only when it `IsAvailable()` and its
balance is strictly below the running minimum (the visit callback
always returns false, so the scan never stops early). -/
def lockScan : List BTracker → Int → Option BTracker → Option BTracker
  | [], _, acc => acc
  | d :: rest, lowest, acc =>
    if d.IsAvailable ∧ d.GetBalance < lowest then lockScan rest d.CurrentBalance (some d)
    else lockScan rest lowest acc

/-- The sentinel the source initialises `lowestAmount` with. -/
def lockSentinel : Int := 999999999999999

/-- The trackers `IterateRange` hands to the visit callback: the stored
values under keys in the range `prefix ++ "tracker_  "` (inclusive) to
`prefix ++ "tracker_~~"` (exclusive), ascending.  `IterateRange` is
modelled from the spec (§6) as the in-order visit of the stored keys in
the range; deserialization is the identity and never fails. -/
def scanEntries (ts : TrackerStoreB) : List BTracker :=
  (ts.state.filter (fun kv =>
    leBytes (ts.pfx ++ strBytes "tracker_  ") kv.1 &&
    ltBytes kv.1 (ts.pfx ++ strBytes "tracker_~~"))).map (fun kv => kv.2)

/-- `TrackerStore.GetTrackerForLock()`: scan the `tracker_` range with
`lockScan` and fail when no candidate was found. -/
def GetTrackerForLock (ts : TrackerStoreB) : Except String BTracker :=
  match lockScan (scanEntries ts) lockSentinel none with
  | none => Except.error "no tracker found"
  | some t => Except.ok t

/-- First-minimum selection the `lockScan` loop implements: take the
first visited tracker that is available and strictly below the running
minimum, replace it only by a strictly cheaper later one. -/
def cand : List BTracker → Int → Option BTracker
  | [], _ => none
  | d :: rest, lowest =>
    if d.IsAvailable ∧ d.GetBalance < lowest then
      match cand rest d.CurrentBalance with
      | none => some d
      | some u => some u
    else cand rest lowest

/-- `GetBalance` reads `CurrentBalance`. -/
theorem getBalance_eq (t : BTracker) : t.GetBalance = t.CurrentBalance := rfl

/-- The loop with accumulator equals the accumulator-free
first-minimum selection. -/
theorem lockScan_cand (l : List BTracker) :
    ∀ (lowest : Int) (acc : Option BTracker),
    lockScan l lowest acc =
      (match cand l lowest with | none => acc | some u => some u) := by
  induction l with
  | nil => intro lowest acc; rfl
  | cons d rest ih =>
    intro lowest acc
    by_cases hc : d.IsAvailable = true ∧ d.GetBalance < lowest
    · simp only [lockScan, cand, if_pos hc]
      rw [ih]
      cases cand rest d.CurrentBalance <;> rfl
    · simp only [lockScan, cand, if_neg hc]
      exact ih lowest acc

/-- A selected tracker was visited, is available, and is below the
threshold. -/
theorem cand_spec (l : List BTracker) :
    ∀ (lowest : Int) (t : BTracker), cand l lowest = some t →
    t ∈ l ∧ t.IsAvailable = true ∧ t.GetBalance < lowest := by
  induction l with
  | nil => intro lowest t h; exact absurd h (by simp [cand])
  | cons d rest ih =>
    intro lowest t h
    by_cases hc : d.IsAvailable = true ∧ d.GetBalance < lowest
    · simp only [cand, if_pos hc] at h
      cases hcr : cand rest d.CurrentBalance with
      | none =>
        rw [hcr] at h
        injection h with h
        subst h
        exact ⟨List.mem_cons_self _ _, hc.1, hc.2⟩
      | some u =>
        rw [hcr] at h
        injection h with h
        subst h
        obtain ⟨hm, ha, hb⟩ := ih _ _ hcr
        refine ⟨List.mem_cons_of_mem d hm, ha, ?_⟩
        simp only [getBalance_eq] at hb hc ⊢
        omega
    · simp only [cand, if_neg hc] at h
      obtain ⟨hm, ha, hb⟩ := ih _ _ h
      exact ⟨List.mem_cons_of_mem d hm, ha, hb⟩

/-- When nothing is selected, no visited available tracker was below
the threshold. -/
theorem cand_none (l : List BTracker) :
    ∀ (lowest : Int), cand l lowest = none →
    ∀ u ∈ l, u.IsAvailable = true → ¬ (u.GetBalance < lowest) := by
  induction l with
  | nil => intro lowest _ u hu; exact absurd hu (List.not_mem_nil u)
  | cons d rest ih =>
    intro lowest h u hu hav
    by_cases hc : d.IsAvailable = true ∧ d.GetBalance < lowest
    · simp only [cand, if_pos hc] at h
      cases hcr : cand rest d.CurrentBalance with
      | none => rw [hcr] at h; exact absurd h (by simp)
      | some v => rw [hcr] at h; exact absurd h (by simp)
    · simp only [cand, if_neg hc] at h
      rcases List.mem_cons.mp hu with rfl | hmem
      · intro hub; exact hc ⟨hav, hub⟩
      · exact ih lowest h u hmem hav

/-- The selected tracker has minimal balance among the visited
available trackers below the threshold. -/
theorem cand_min (l : List BTracker) :
    ∀ (lowest : Int) (t : BTracker), cand l lowest = some t →
    ∀ u ∈ l, u.IsAvailable = true → u.GetBalance < lowest →
    t.GetBalance ≤ u.GetBalance := by
  induction l with
  | nil => intro lowest t h; exact absurd h (by simp [cand])
  | cons d rest ih =>
    intro lowest t h u hu hav hub
    by_cases hc : d.IsAvailable = true ∧ d.GetBalance < lowest
    · simp only [cand, if_pos hc] at h
      cases hcr : cand rest d.CurrentBalance with
      | none =>
        rw [hcr] at h
        injection h with h
        subst h
        rcases List.mem_cons.mp hu with rfl | hmem
        · exact le_refl _
        · have hnone := cand_none rest d.CurrentBalance hcr u hmem hav
          simp only [getBalance_eq] at hnone ⊢
          omega
      | some v =>
        rw [hcr] at h
        injection h with h
        subst h
        have hvs := cand_spec rest d.CurrentBalance _ hcr
        rcases List.mem_cons.mp hu with rfl | hmem
        · simp only [getBalance_eq] at hvs ⊢
          omega
        · by_cases h2 : u.GetBalance < d.CurrentBalance
          · exact ih _ _ hcr u hmem hav h2
          · simp only [getBalance_eq] at hvs h2 ⊢
            omega
    · simp only [cand, if_neg hc] at h
      rcases List.mem_cons.mp hu with rfl | hmem
      · exact absurd ⟨hav, hub⟩ hc
      · exact ih lowest t h u hmem hav hub

/-- The selected tracker is the FIRST visited one achieving the
minimum: every available sub-threshold tracker visited before it is
strictly more expensive. -/
theorem cand_first (l : List BTracker) :
    ∀ (lowest : Int) (t : BTracker), cand l lowest = some t →
    ∃ l1 l2, l = l1 ++ t :: l2 ∧
      ∀ u ∈ l1, u.IsAvailable = true → u.GetBalance < lowest →
        t.GetBalance < u.GetBalance := by
  induction l with
  | nil => intro lowest t h; exact absurd h (by simp [cand])
  | cons d rest ih =>
    intro lowest t h
    by_cases hc : d.IsAvailable = true ∧ d.GetBalance < lowest
    · simp only [cand, if_pos hc] at h
      cases hcr : cand rest d.CurrentBalance with
      | none =>
        rw [hcr] at h
        injection h with h
        subst h
        exact ⟨[], rest, rfl, fun u hu => absurd hu (List.not_mem_nil u)⟩
      | some v =>
        rw [hcr] at h
        injection h with h
        subst h
        have hvs := cand_spec rest d.CurrentBalance _ hcr
        obtain ⟨r1, r2, hsplit, hfirst⟩ := ih _ _ hcr
        refine ⟨d :: r1, r2, by rw [hsplit]; rfl, ?_⟩
        intro u hu hav hub
        rcases List.mem_cons.mp hu with rfl | hm1
        · simp only [getBalance_eq] at hvs ⊢
          omega
        · by_cases h2 : u.GetBalance < d.CurrentBalance
          · exact hfirst u hm1 hav h2
          · simp only [getBalance_eq] at hvs h2 ⊢
            omega
    · simp only [cand, if_neg hc] at h
      obtain ⟨r1, r2, hsplit, hfirst⟩ := ih lowest t h
      refine ⟨d :: r1, r2, by rw [hsplit]; rfl, ?_⟩
      intro u hu hav hub
      rcases List.mem_cons.mp hu with rfl | hm1
      · exact absurd ⟨hav, hub⟩ hc
      · exact hfirst u hm1 hav hub

/-- The scan's candidate pool, in the spec's words for the amended
claim: the stored trackers whose key lies in the scanned
`prefix ++ "tracker_"` range, which report `IsAvailable()`, and whose
balance is below the scan's sentinel, in ascending key order. -/
def availableInScanRange (ts : TrackerStoreB) : List BTracker :=
  (scanEntries ts).filter (fun d => d.IsAvailable && decide (d.GetBalance < lockSentinel))

/-- A fresh tracker store under the given prefix. -/
def emptyTrackerStore (p : ByteStr) : TrackerStoreB := { pfx := p, state := [] }

/-- The claim's example store: trackers named `A` (balance 50,
available), `B` (balance 10, available), `C` (balance 5, unavailable),
written through `SetTracker` under the prefix `btct`. -/
def exStoreABC : TrackerStoreB :=
  SetTracker (SetTracker (SetTracker (emptyTrackerStore (strBytes "btct"))
    (strBytes "A") { Name := [], CurrentBalance := 50, available := true })
    (strBytes "B") { Name := [], CurrentBalance := 10, available := true })
    (strBytes "C") { Name := [], CurrentBalance := 5, available := false }

/-- The same three trackers under names inside the scanned range:
`TRACKER_A` (50, available), `TRACKER_B` (10, available), `TRACKER_C`
(5, unavailable). -/
def exStoreTrk : TrackerStoreB :=
  SetTracker (SetTracker (SetTracker (emptyTrackerStore (strBytes "btct"))
    (strBytes "TRACKER_A") { Name := [], CurrentBalance := 50, available := true })
    (strBytes "TRACKER_B") { Name := [], CurrentBalance := 10, available := true })
    (strBytes "TRACKER_C") { Name := [], CurrentBalance := 5, available := false }

/-- Counterexample for C4: over the claim's own instance
`{A: 50 available, B: 10 available, C: 5 unavailable}` the code returns
the no-tracker-found error, not `B` — the lower-cased keys `a`, `b`,
`c` fall outside the scanned range `prefix ++ "tracker_  "` …
`prefix ++ "tracker_~~"`, so `GetTrackerForLock` never sees these
trackers although available ones are stored. -/
theorem getTrackerForLock_misses_short_names :
    GetTrackerForLock exStoreABC = Except.error "no tracker found" ∧
    (∃ kv ∈ exStoreABC.state, kv.2.IsAvailable = true) :=
  ⟨rfl, by decide⟩

/-- C4 as amended: `GetTrackerForLock` considers exactly the stored
trackers whose key lies in the scanned `tracker_` range, which report
`IsAvailable()` and whose `CurrentBalance` is below the sentinel
`999999999999999`; it fails with the no-tracker-found error exactly
when that pool is empty, and otherwise returns the pool member with the
lowest balance, ties broken by ascending key (iteration) order; in
particular over `{TRACKER_A: 50 available, TRACKER_B: 10 available,
TRACKER_C: 5 unavailable}` it returns `TRACKER_B`. -/
theorem getTrackerForLock_picks_min_available_in_range :
    (∀ ts : TrackerStoreB,
      List.Pairwise (fun kv1 kv2 => ltBytes kv1.1 kv2.1 = true) ts.state →
      ((GetTrackerForLock ts = Except.error "no tracker found" ↔
          availableInScanRange ts = []) ∧
       ∀ t, GetTrackerForLock ts = Except.ok t →
         t ∈ availableInScanRange ts ∧
         (∀ u ∈ availableInScanRange ts, t.GetBalance ≤ u.GetBalance) ∧
         ∃ q1 q2, availableInScanRange ts = q1 ++ t :: q2 ∧
           ∀ u ∈ q1, t.GetBalance < u.GetBalance)) ∧
    GetTrackerForLock exStoreTrk =
      Except.ok { Name := strBytes "TRACKER_B", CurrentBalance := 10, available := true } := by
  constructor
  · intro ts hsort
    cases hc : cand (scanEntries ts) lockSentinel with
    | none =>
      have hg : GetTrackerForLock ts = Except.error "no tracker found" := by
        unfold GetTrackerForLock
        rw [lockScan_cand, hc]
      refine ⟨⟨fun _ => ?_, fun _ => hg⟩, fun t ht => ?_⟩
      · apply List.filter_eq_nil_iff.mpr
        intro d hd
        have hnone := cand_none (scanEntries ts) lockSentinel hc d hd
        simp only [Bool.and_eq_true, decide_eq_true_eq, not_and]
        intro hav
        exact fun hb => hnone hav hb
      · rw [hg] at ht
        exact absurd ht (by simp)
    | some t0 =>
      have hg : GetTrackerForLock ts = Except.ok t0 := by
        unfold GetTrackerForLock
        rw [lockScan_cand, hc]
      obtain ⟨hmem0, hav0, hb0⟩ := cand_spec (scanEntries ts) lockSentinel t0 hc
      have hp0 : (fun d => d.IsAvailable && decide (d.GetBalance < lockSentinel)) t0 = true := by
        simp only [Bool.and_eq_true, decide_eq_true_eq]
        exact ⟨hav0, hb0⟩
      have ht0Q : t0 ∈ availableInScanRange ts := List.mem_filter.mpr ⟨hmem0, hp0⟩
      refine ⟨⟨fun he => ?_, fun hq => ?_⟩, fun t ht => ?_⟩
      · rw [hg] at he
        exact absurd he (by simp)
      · rw [hq] at ht0Q
        exact absurd ht0Q (List.not_mem_nil t0)
      · rw [hg] at ht
        injection ht with ht
        subst ht
        refine ⟨ht0Q, fun u hu => ?_, ?_⟩
        · obtain ⟨huE, hup⟩ := List.mem_filter.mp hu
          simp only [Bool.and_eq_true, decide_eq_true_eq] at hup
          exact cand_min (scanEntries ts) lockSentinel _ hc u huE hup.1 hup.2
        · obtain ⟨l1, l2, hsplit, hfirst⟩ := cand_first (scanEntries ts) lockSentinel _ hc
          refine ⟨l1.filter (fun d => d.IsAvailable && decide (d.GetBalance < lockSentinel)),
                  l2.filter (fun d => d.IsAvailable && decide (d.GetBalance < lockSentinel)),
                  ?_, ?_⟩
          · unfold availableInScanRange
            rw [hsplit, List.filter_append]
            have h3 : List.filter
                (fun d => d.IsAvailable && decide (d.GetBalance < lockSentinel)) (t0 :: l2) =
                t0 :: List.filter
                  (fun d => d.IsAvailable && decide (d.GetBalance < lockSentinel)) l2 :=
              List.filter_cons_of_pos hp0
            rw [h3]
          · intro u hu
            obtain ⟨hm1, hup⟩ := List.mem_filter.mp hu
            simp only [Bool.and_eq_true, decide_eq_true_eq] at hup
            exact hfirst u hm1 hup.1 hup.2
  · rfl

/-- Witness for C4's amended statement: instantiating at the in-range
example store (whose keys are sorted) yields the characterization and
the concrete selection of `TRACKER_B`. -/
theorem getTrackerForLock_picks_min_available_in_range_witness :
    ((GetTrackerForLock exStoreTrk = Except.error "no tracker found" ↔
        availableInScanRange exStoreTrk = []) ∧
     ∀ t, GetTrackerForLock exStoreTrk = Except.ok t →
       t ∈ availableInScanRange exStoreTrk ∧
       (∀ u ∈ availableInScanRange exStoreTrk, t.GetBalance ≤ u.GetBalance) ∧
       ∃ q1 q2, availableInScanRange exStoreTrk = q1 ++ t :: q2 ∧
         ∀ u ∈ q1, t.GetBalance < u.GetBalance) :=
  getTrackerForLock_picks_min_available_in_range.1 exStoreTrk (by decide)

end Protocol
